import Mathlib

/-!
Verification of the ultra-doc-intelligence core against its specification.

Text is modelled as a list of Unicode code points (`List Nat`), mirroring
Python strings as sequences of characters; `ord` is then the identity.
Floating-point arithmetic of the source is modelled over `ℚ` (and `ℝ` for
the square root appearing in vector normalization).
-/

/-- Code points of a Lean string literal, used to transcribe the Python
string literals of the source. -/
def codes (s : String) : List Nat :=
  s.data.map Char.toNat

/-- Python `str.lower` on one code point (ASCII range, as exercised by the
repository's data). -/
def pyLower (c : Nat) : Nat :=
  if 65 ≤ c ∧ c ≤ 90 then c + 32 else c

/-- Python `str.lower` on a whole string. -/
def lowerL (s : List Nat) : List Nat :=
  s.map pyLower

/-- Whitespace test matching Python `str.strip` / `\s` on the ASCII range. -/
def isWs (c : Nat) : Bool :=
  c = 32 ∨ c = 9 ∨ c = 10 ∨ c = 13 ∨ c = 11 ∨ c = 12

/-- Python `str.strip`: drop leading and trailing whitespace. -/
def pyStrip (s : List Nat) : List Nat :=
  ((s.dropWhile isWs).reverse.dropWhile isWs).reverse

/-- Python slice `s[a:b]` for `0 ≤ a ≤ b`. -/
def pySlice (s : List Nat) (a b : Nat) : List Nat :=
  (s.drop a).take (b - a)

/-- `p` is a leading segment of `s` (helper for Python's `in` on strings). -/
def leadsList : List Nat → List Nat → Bool
  | [], _ => true
  | _ :: _, [] => false
  | a :: as, b :: bs => a = b && leadsList as bs

/-- Python `p in s` for strings: `p` occurs contiguously in `s`. -/
def hasSub (s p : List Nat) : Bool :=
  match s with
  | [] => p.isEmpty
  | _ :: rest => leadsList p s || hasSub rest p

/-! ## Chunker (src/app/core/chunker.py) -/

/-- A parsed page, `{"page": n, "text": t}`. -/
structure Page where
  page : Nat
  text : List Nat
deriving DecidableEq, Repr

/-- A chunk, `{"text": t, "page": n}`. -/
structure Chunk where
  text : List Nat
  page : Nat
deriving DecidableEq, Repr

instance : Inhabited Chunk := ⟨⟨[], 0⟩⟩

/-- The `while start < text_length` loop of `chunk_text`, for one page, with
explicit fuel: `none` means the fuel was exhausted before the loop finished.
Each iteration takes `text[start : start + chunk_size]`, keeps it when it has
a non-whitespace character, and updates `start` to `end - overlap` clamped to
`0` (natural subtraction performs exactly that clamp). -/
def chunkPageFuel (text : List Nat) (chunk_size overlap : Nat) :
    Nat → Nat → Option (List (List Nat))
  | 0, start => if text.length ≤ start then some [] else none
  | fuel + 1, start =>
    if text.length ≤ start then some []
    else
      let chunk := pySlice text start (start + chunk_size)
      match chunkPageFuel text chunk_size overlap fuel (start + chunk_size - overlap) with
      | none => none
      | some rest =>
        some (if pyStrip chunk ≠ [] then chunk :: rest else rest)

/-- Chunks of one page; `text.length` fuel suffices whenever
`overlap < chunk_size` (proved below). -/
def chunkPage (text : List Nat) (chunk_size overlap : Nat) : List (List Nat) :=
  (chunkPageFuel text chunk_size overlap text.length 0).getD []

/-- `chunk_text(pages, chunk_size, overlap)`: per-page windows in page order. -/
def chunk_text (pages : List Page) (chunk_size overlap : Nat) : List Chunk :=
  pages.flatMap fun p => (chunkPage p.text chunk_size overlap).map fun c => ⟨c, p.page⟩

/-- With `overlap < chunk_size` the window start strictly advances, so
`text.length` steps of fuel always complete the loop. -/
lemma chunkPageFuel_isSome (text : List Nat) (chunk_size overlap : Nat)
    (hlt : overlap < chunk_size) :
    ∀ fuel start, text.length ≤ start + fuel →
      (chunkPageFuel text chunk_size overlap fuel start).isSome := by
  intro fuel
  induction fuel with
  | zero =>
    intro start h
    simp only [chunkPageFuel]
    simpa using h
  | succ f ih =>
    intro start h
    simp only [chunkPageFuel]
    by_cases hs : text.length ≤ start
    · simp [hs]
    · have hnext : text.length ≤ start + chunk_size - overlap + f := by omega
      have := ih (start + chunk_size - overlap) hnext
      simp only [hs, if_false]
      cases hmatch : chunkPageFuel text chunk_size overlap f (start + chunk_size - overlap) with
      | none => rw [hmatch] at this; simp at this
      | some rest => simp

/-! ## Embedder (src/app/core/retriever.py) -/

/-- The character-count vector built by the loop of `simple_embed`: slot `i`
holds the number of characters of the lower-cased input whose code point is
congruent to `i` modulo `dim` (`vector[ord(char) % dim] += 1`). -/
def rawEmbed (text : List Nat) (dim : Nat) : List ℚ :=
  (List.range dim).map fun i => (((lowerL text).countP fun c => c % dim = i : ℕ) : ℚ)

/-- Sum of squares of a vector; `np.linalg.norm` is its square root. -/
def normSq (v : List ℚ) : ℚ :=
  (v.map fun x => x * x).sum

/-- `simple_embed(text, dim)`: count characters into buckets, then divide by
the Euclidean norm when it is non-zero.  The source tests `norm != 0`; since
`norm = Real.sqrt (normSq v)` and `normSq v ≥ 0`, that test is equivalent to
`normSq v ≠ 0` (lemma `sqrt_normSq_eq_zero_iff` below). -/
noncomputable def simple_embed (text : List Nat) (dim : Nat) : List ℝ :=
  let vector := rawEmbed text dim
  if normSq vector ≠ 0 then
    vector.map fun x : ℚ => (x : ℝ) / Real.sqrt ((normSq vector : ℚ) : ℝ)
  else
    vector.map fun x : ℚ => (x : ℝ)

/-! ## Vector store (src/app/core/vector_store.py)

`faiss.IndexFlatL2` is an external library component: it is modelled by its
documented contract — an exact (exhaustive) nearest-neighbor index over
squared Euclidean distance whose `add` asserts that every row of the input
has exactly `d` columns, whose `search` returns the `top_k` smallest
distances in ascending order with ties broken by insertion order, padding
with index `-1` when fewer than `top_k` entries exist (the padding entries
are exactly those removed by the `0 <= idx < len(...)` filter in
`VectorStore.search`, so the model simply yields fewer pairs), and whose
serialization round-trips the stored float32 data exactly. -/

/-- A search result `{"chunk": c, "distance": d}`. -/
structure SearchResult where
  chunk : Chunk
  distance : ℚ
deriving DecidableEq, Repr

/-- The vector store: configured dimension, the rows held by the flat faiss
index, and the parallel chunk list. -/
structure VectorStore where
  dim : Nat
  vecs : List (List ℚ)
  text_chunks : List Chunk
deriving DecidableEq, Repr

/-- `VectorStore.add(vectors, chunks)`: `faiss` asserts each row has `dim`
columns (rejecting the call before anything is modified); the chunk list is
then extended.  No check relates the lengths of the two sequences. -/
def VectorStore.add (st : VectorStore) (vectors : List (List ℚ))
    (chunks : List Chunk) : Option VectorStore :=
  if vectors.all fun v => v.length = st.dim then
    some { st with vecs := st.vecs ++ vectors, text_chunks := st.text_chunks ++ chunks }
  else
    none

/-- Squared Euclidean distance between two vectors (faiss L2 metric). -/
def sqDist (u v : List ℚ) : ℚ :=
  (List.zipWith (fun a b => (a - b) * (a - b)) u v).sum

/-- Ordering used by the flat index: ascending distance, ties by ascending
insertion index. -/
def scoreLe (a b : ℕ × ℚ) : Prop :=
  a.2 < b.2 ∨ (a.2 = b.2 ∧ a.1 ≤ b.1)

instance : DecidableRel scoreLe := fun a b => by
  unfold scoreLe; infer_instance

instance : IsTotal (ℕ × ℚ) scoreLe := by
  constructor
  intro a b
  rcases lt_trichotomy a.2 b.2 with h | h | h
  · exact Or.inl (Or.inl h)
  · rcases Nat.le_total a.1 b.1 with h2 | h2
    · exact Or.inl (Or.inr ⟨h, h2⟩)
    · exact Or.inr (Or.inr ⟨h.symm, h2⟩)
  · exact Or.inr (Or.inl h)

instance : IsTrans (ℕ × ℚ) scoreLe := by
  constructor
  rintro a b c (hab | ⟨hab, hab2⟩) (hbc | ⟨hbc, hbc2⟩)
  · exact Or.inl (hab.trans hbc)
  · exact Or.inl (hbc ▸ hab)
  · exact Or.inl (hab ▸ hbc)
  · exact Or.inr ⟨hab.trans hbc, hab2.trans hbc2⟩

/-- `index.search(q, top_k)` on the flat index: score every stored row,
order by ascending distance (ties by insertion order), keep `top_k`. -/
def faissSearch (rows : List (List ℚ)) (q : List ℚ) (top_k : Nat) : List (ℕ × ℚ) :=
  (List.insertionSort scoreLe (rows.map (sqDist q)).enum).take top_k

/-- `VectorStore.search(query_vector, top_k)`: empty result on an empty
index; otherwise the faiss hits with index inside the chunk list bounds are
turned into results (the Python loop keeps `0 <= idx < len(text_chunks)`). -/
def VectorStore.search (st : VectorStore) (query_vector : List ℚ)
    (top_k : Nat) : List SearchResult :=
  if st.vecs.length = 0 then []
  else
    ((faissSearch st.vecs query_vector top_k).filter fun p =>
        p.1 < st.text_chunks.length).map fun p =>
      ⟨st.text_chunks.getD p.1 default, p.2⟩

/-- One serialized faiss index file (`index.faiss`): dimension plus rows. -/
structure FaissFile where
  d : Nat
  rows : List (List ℚ)
deriving DecidableEq

/-- The directory contents save/load traffic in: a possible `index.faiss`
and a possible `chunks.json` per path. -/
structure FileSystem where
  idxFiles : String → Option FaissFile
  chunkFiles : String → Option (List Chunk)

/-- `VectorStore.save(path)`: write the index file and the chunk file. -/
def VectorStore.save (st : VectorStore) (path : String) (fs : FileSystem) :
    FileSystem :=
  { idxFiles := fun p => if p = path then some ⟨st.dim, st.vecs⟩ else fs.idxFiles p
    chunkFiles := fun p => if p = path then some st.text_chunks else fs.chunkFiles p }

/-- `VectorStore.load(path)`: `None` unless both files exist; otherwise
rebuild the store with `dim` taken from the index file. -/
def VectorStore.load (fs : FileSystem) (path : String) : Option VectorStore :=
  match fs.idxFiles path, fs.chunkFiles path with
  | some idx, some chunks => some { dim := idx.d, vecs := idx.rows, text_chunks := chunks }
  | _, _ => none

/-! ## Confidence (src/app/core/confidence.py) -/

/-- Python `round(x, 2)`, modelled as rounding to the nearest hundredth. -/
def round2 (x : ℚ) : ℚ :=
  ((round (100 * x) : ℤ) : ℚ) / 100

/-- `calculate_confidence(retrieval_results, max_distance)`. -/
def calculate_confidence (retrieval_results : List SearchResult)
    (max_distance : ℚ) : ℚ :=
  match retrieval_results with
  | [] => 0
  | r :: _ =>
    if max_distance ≤ r.distance then 0
    else round2 (1 - r.distance / max_distance)

/-! ## Guardrails (src/app/core/guardrails.py) -/

/-- `strong_retrieval_guardrail(results, distance_threshold)`. -/
def strong_retrieval_guardrail (results : List SearchResult)
    (distance_threshold : ℚ) : Bool :=
  match results with
  | [] => false
  | r :: _ => r.distance ≤ distance_threshold

/-- The fixed keyword list of `keyword_intent_guardrail`. -/
def critical_keywords : List (List Nat) :=
  [codes "ifsc", codes "swift", codes "iban", codes "routing"]

/-- `keyword_intent_guardrail(question, text)`: `False` as soon as some
critical keyword occurs in the lower-cased question but not in the
lower-cased text. -/
def keyword_intent_guardrail (question text : List Nat) : Bool :=
  let q := lowerL question
  let t := lowerL text
  critical_keywords.all fun kw => !(hasSub q kw && !hasSub t kw)

/-- A `\w` word character (ASCII range). -/
def isWordChar (c : Nat) : Bool :=
  (48 ≤ c ∧ c ≤ 57) ∨ (65 ≤ c ∧ c ≤ 90) ∨ (97 ≤ c ∧ c ≤ 122) ∨ c = 95

/-- Tokenizer worker: `cur` holds the word characters of the current run in
reverse. -/
def wordTokensA (cur : List Nat) : List Nat → List (List Nat)
  | [] => if cur = [] then [] else [cur.reverse]
  | c :: rest =>
    if isWordChar c then wordTokensA (c :: cur) rest
    else if cur = [] then wordTokensA [] rest
    else cur.reverse :: wordTokensA [] rest

/-- `re.findall(r"\w+", s)`: the maximal runs of word characters. -/
def wordTokens (s : List Nat) : List (List Nat) :=
  wordTokensA [] s

/-- The stop-word set of `question_coverage_guardrail`. -/
def stop_words : List (List Nat) :=
  [codes "a", codes "an", codes "the", codes "is", codes "are", codes "was",
   codes "were", codes "be", codes "been", codes "being", codes "have",
   codes "has", codes "had", codes "do", codes "does", codes "did",
   codes "will", codes "would", codes "could", codes "should", codes "may",
   codes "might", codes "shall", codes "can", codes "need", codes "dare",
   codes "ought", codes "and", codes "but", codes "or", codes "nor",
   codes "not", codes "so", codes "yet", codes "both", codes "either",
   codes "neither", codes "each", codes "every", codes "all", codes "any",
   codes "few", codes "more", codes "most", codes "other", codes "some",
   codes "such", codes "no", codes "only", codes "own", codes "same",
   codes "than", codes "too", codes "very", codes "just", codes "because",
   codes "as", codes "until", codes "while", codes "of", codes "at",
   codes "by", codes "for", codes "with", codes "about", codes "against",
   codes "between", codes "through", codes "during", codes "before",
   codes "after", codes "above", codes "below", codes "to", codes "from",
   codes "up", codes "down", codes "in", codes "out", codes "on",
   codes "off", codes "over", codes "under", codes "again", codes "further",
   codes "then", codes "once", codes "here", codes "there", codes "when",
   codes "where", codes "why", codes "how", codes "what", codes "which",
   codes "who", codes "whom", codes "this", codes "that", codes "these",
   codes "those", codes "i", codes "me", codes "my", codes "myself",
   codes "we", codes "our", codes "ours", codes "ourselves", codes "you",
   codes "your", codes "yours", codes "yourself", codes "he", codes "him",
   codes "his", codes "himself", codes "she", codes "her", codes "hers",
   codes "herself", codes "it", codes "its", codes "itself", codes "they",
   codes "them", codes "their", codes "theirs", codes "themselves",
   codes "many", codes "much", codes "tell", codes "give", codes "show",
   codes "find", codes "get", codes "list", codes "describe"]

/-- `question_coverage_guardrail(question, text, min_match_ratio)`. -/
def question_coverage_guardrail (question text : List Nat)
    (min_match_ratio : ℚ) : Bool :=
  let question_words := (wordTokens (lowerL question)).filter fun w =>
    !stop_words.contains w && decide (1 < w.length)
  let text_words := wordTokens (lowerL text)
  if question_words = [] then true
  else
    let matched := question_words.filter fun w => text_words.contains w
    min_match_ratio ≤ (matched.length : ℚ) / (question_words.length : ℚ)

/-- The currency markers of `rate_guardrail`. -/
def currency_markers : List (List Nat) :=
  [codes "$", codes "usd", codes "inr", codes "eur", codes "gbp", codes "cad"]

/-- `rate_guardrail(question, text)`. -/
def rate_guardrail (question text : List Nat) : Bool :=
  let q := lowerL question
  let t := lowerL text
  if hasSub q (codes "rate") || hasSub q (codes "charge") || hasSub q (codes "amount") then
    let has_number := t.any fun c => 48 ≤ c ∧ c ≤ 57
    let has_currency := currency_markers.any fun c => hasSub t c
    has_number && has_currency
  else
    true

/-- `final_guardrail(question, results)`: the four checks in order, first
failure wins (thresholds are the source defaults 1.5 and 0.2). -/
def final_guardrail (question : List Nat) (results : List SearchResult) : Bool :=
  if !strong_retrieval_guardrail results (3 / 2) then false
  else
    match results with
    | [] => false
    | r :: _ =>
      let top_text := r.chunk.text
      if !keyword_intent_guardrail question top_text then false
      else if !question_coverage_guardrail question top_text (1 / 5) then false
      else if !rate_guardrail question top_text then false
      else true

/-! ## Structured extractor (src/app/core/structured_extractor.py)

The extractor's regular expressions are modelled with a small matcher whose
candidate lists follow Python's backtracking priority (alternatives in
written order, greedy quantifiers longest first, lazy quantifiers shortest
first, `re.search` at the leftmost matching start).  `re.IGNORECASE` is
modelled by matching against the lower-cased subject (the transcribed
patterns and classes are lower-case-normalized) while capture text is taken
from the original subject. -/

/-- A character class: inclusive code-point ranges, possibly negated. -/
structure CharCls where
  neg : Bool
  ranges : List (Nat × Nat)
deriving DecidableEq, Repr

/-- Membership in a character class. -/
def CharCls.mem (cc : CharCls) (c : Nat) : Bool :=
  let inR := cc.ranges.any fun r => r.1 ≤ c ∧ c ≤ r.2
  if cc.neg then !inR else inR

/-- The regex constructs used by the extractor's patterns. -/
inductive RE where
  | eps
  | cls (cc : CharCls)
  | cat (a b : RE)
  | alt (a b : RE)
  | starC (cc : CharCls)
  | plusLazyC (cc : CharCls)
  | opt (a : RE)
  | grp (a : RE)
  | wb
  | eos
deriving DecidableEq, Repr

/-- `\s` class. -/
def wsC : CharCls := ⟨false, [(9, 13), (32, 32)]⟩

/-- `\d` class. -/
def digitC : CharCls := ⟨false, [(48, 57)]⟩

/-- `\w` class (lower-case-normalized subject). -/
def wordC : CharCls := ⟨false, [(48, 57), (95, 95), (97, 122)]⟩

/-- `[A-Z0-9\-]` under `re.IGNORECASE`, on the lower-cased subject. -/
def idC : CharCls := ⟨false, [(45, 45), (48, 57), (97, 122)]⟩

/-- `[\d,]` class. -/
def digitCommaC : CharCls := ⟨false, [(44, 44), (48, 57)]⟩

/-- `[:\-]` class. -/
def colonDashC : CharCls := ⟨false, [(45, 45), (58, 58)]⟩

/-- `[\/\-]` class. -/
def slashDashC : CharCls := ⟨false, [(45, 45), (47, 47)]⟩

/-- `.` (any character but a newline). -/
def anyC : CharCls := ⟨true, [(10, 10)]⟩

/-- Literal one-character regex. -/
def rchar (c : Nat) : RE :=
  RE.cls ⟨false, [(c, c)]⟩

/-- Literal word regex, from a list of code points. -/
def rstrL : List Nat → RE
  | [] => RE.eps
  | c :: rest => RE.cat (rchar c) (rstrL rest)

/-- Literal word regex, from a string literal. -/
def rstr (s : String) : RE :=
  rstrL (codes s)

/-- Concatenation of a list of regexes. -/
def rcat : List RE → RE
  | [] => RE.eps
  | r :: rest => RE.cat r (rcat rest)

/-- Alternation of a list of regexes, priority in list order. -/
def ralt : List RE → RE
  | [] => RE.cls ⟨false, []⟩
  | [r] => r
  | r :: rest => RE.alt r (ralt rest)

/-- Greedy `cc+`. -/
def rplusC (cc : CharCls) : RE :=
  RE.cat (RE.cls cc) (RE.starC cc)

/-- Greedy `cc{0,n}` (prefers the longest repetition, as Python does). -/
def roptChainC (cc : CharCls) : Nat → RE
  | 0 => RE.eps
  | n + 1 => RE.opt (RE.cat (RE.cls cc) (roptChainC cc n))

/-- Greedy `cc{m,m+extra}`. -/
def rrepC (cc : CharCls) (m extra : Nat) : RE :=
  rcat (List.replicate m (RE.cls cc) ++ [roptChainC cc extra])

/-- Length of the run of class characters starting at position `p`. -/
def runLen (s : List Nat) (cc : CharCls) (p : Nat) : Nat :=
  ((s.drop p).takeWhile cc.mem).length

/-- Word-boundary test at position `p` of `s`. -/
def atWb (s : List Nat) (p : Nat) : Bool :=
  let left := if p = 0 then false else isWordChar (s.getD (p - 1) 0)
  let right := if p < s.length then isWordChar (s.getD p 0) else false
  left != right

/-- First-some combination of capture information. -/
def ocomb (a b : Option (Nat × Nat)) : Option (Nat × Nat) :=
  match a with
  | some x => some x
  | none => b

/-- All ways the regex can match starting at position `p` of `s`, in
Python's backtracking priority order; each way is its end position together
with the span captured by group 1, if any. -/
def mrun (s : List Nat) : RE → Nat → List (Nat × Option (Nat × Nat))
  | RE.eps, p => [(p, none)]
  | RE.cls cc, p =>
    if p < s.length ∧ cc.mem (s.getD p 0) then [(p + 1, none)] else []
  | RE.cat a b, p =>
    (mrun s a p).flatMap fun q => (mrun s b q.1).map fun r => (r.1, ocomb q.2 r.2)
  | RE.alt a b, p => mrun s a p ++ mrun s b p
  | RE.starC cc, p =>
    (List.range (runLen s cc p + 1)).map fun j => (p + runLen s cc p - j, none)
  | RE.plusLazyC cc, p =>
    (List.range (runLen s cc p)).map fun j => (p + 1 + j, none)
  | RE.opt a, p => mrun s a p ++ [(p, none)]
  | RE.grp a, p => (mrun s a p).map fun q => (q.1, some (p, q.1))
  | RE.wb, p => if atWb s p then [(p, none)] else []
  | RE.eos, p => if s.length ≤ p then [(p, none)] else []

/-- Scan start positions left to right (fuel counts the positions still to
try); at the first position with a match, return its highest-priority way. -/
def reSearchAux (r : RE) (sLow : List Nat) : Nat → Nat → Option (Nat × Option (Nat × Nat))
  | 0, _ => none
  | fuel + 1, p =>
    match mrun sLow r p with
    | [] => reSearchAux r sLow fuel (p + 1)
    | m :: _ => some m

/-- `re.search(r, s, re.IGNORECASE)`: leftmost match over the lower-cased
subject. -/
def reSearch (r : RE) (s : List Nat) : Option (Nat × Option (Nat × Nat)) :=
  reSearchAux r (lowerL s) (s.length + 1) 0

/-- `m.group(1)` of a successful search, read from the original subject
(every transcribed pattern engages its group whenever it matches, so the
`(0, 0)` fallback span is never reached). -/
def searchGroup (r : RE) (s : List Nat) : Option (List Nat) :=
  (reSearch r s).map fun m => pySlice s (m.2.getD (0, 0)).1 (m.2.getD (0, 0)).2

/-- The nested `find(patterns, source)` helper: first pattern that matches
wins, and its group-1 text is stripped. -/
def findFirst (patterns : List RE) (source : List Nat) : Option (List Nat) :=
  match patterns with
  | [] => none
  | r :: rest =>
    match searchGroup r source with
    | some g => some (pyStrip g)
    | none => findFirst rest source

/-- Worker for `normWs`: `inRun` records whether the previous character was
whitespace (the run's single replacement space is emitted at its start). -/
def normWsA (inRun : Bool) : List Nat → List Nat
  | [] => []
  | c :: rest =>
    if isWs c then
      if inRun then normWsA true rest else 32 :: normWsA true rest
    else c :: normWsA false rest

/-- `re.sub(r"\s+", " ", s)`: collapse every whitespace run to one space. -/
def normWs (s : List Nat) : List Nat :=
  normWsA false s

/-- Python `str.upper` on one code point (ASCII range). -/
def pyUpper (c : Nat) : Nat :=
  if 97 ≤ c ∧ c ≤ 122 then c - 32 else c

/-- `\s*` -/
def wsStar : RE := RE.starC wsC

/-- `\s*[:\-]?\s*` -/
def sepOpt : RE := rcat [wsStar, RE.opt (RE.cls colonDashC), wsStar]

/-- `\s*[:\-]\s*` -/
def sepReq : RE := rcat [wsStar, RE.cls colonDashC, wsStar]

/-- `(?:id|#|no|number)` -/
def idWord : RE := ralt [rstr "id", rstr "#", rstr "no", rstr "number"]

/-- `(.+?)` -/
def lazyGrp : RE := RE.grp (RE.plusLazyC anyC)

/-- The six shipment-id patterns, in source order. -/
def shipmentIdPatterns : List RE :=
  [rcat [rstr "shipment", wsStar, idWord, sepOpt, RE.grp (rplusC idC)],
   rcat [rstr "load", wsStar, idWord, sepOpt, RE.grp (rplusC idC)],
   rcat [rstr "order", wsStar, idWord, sepOpt, RE.grp (rplusC idC)],
   rcat [rstr "pro", wsStar, ralt [rstr "#", rstr "number"], sepOpt, RE.grp (rplusC idC)],
   rcat [rstr "bol", wsStar, ralt [rstr "#", rstr "number"], sepOpt, RE.grp (rplusC idC)],
   rcat [RE.wb, RE.grp (RE.cat (rstr "ld") (rplusC digitC)), RE.wb]]

/-- `(?:\n|$)` -/
def endAlt : RE := ralt [rchar 10, RE.eos]

/-- The four shipper patterns. -/
def shipperPatterns : List RE :=
  [rcat [rstr "shipper", sepReq, lazyGrp,
         ralt [rchar 10, RE.eos, rstr "consignee", rstr "receiver", rstr "deliver"]],
   rcat [rstr "ship", wsStar, rstr "from", sepReq, lazyGrp, endAlt],
   rcat [rstr "origin", sepReq, lazyGrp, endAlt],
   rcat [rstr "pickup", wsStar, ralt [rstr "location", rstr "address", rstr "from"],
         sepReq, lazyGrp, endAlt]]

/-- The five consignee patterns. -/
def consigneePatterns : List RE :=
  [rcat [rstr "consignee", sepReq, lazyGrp,
         ralt [rchar 10, RE.eos, rstr "shipper", rstr "deliver"]],
   rcat [rstr "receiver", sepReq, lazyGrp, endAlt],
   rcat [rstr "ship", wsStar, rstr "to", sepReq, lazyGrp, endAlt],
   rcat [rstr "destination", sepReq, lazyGrp, endAlt],
   rcat [rstr "deliver", RE.opt (rchar 121), wsStar,
         ralt [rstr "location", rstr "address", rstr "to"], sepReq, lazyGrp, endAlt]]

/-- `(\d{1,2}[\/\-]\d{1,2}[\/\-]\d{2,4}(?:\s+\d{1,2}:\d{2})?)` -/
def dateGrp : RE :=
  RE.grp (rcat
    [rrepC digitC 1 1, RE.cls slashDashC, rrepC digitC 1 1, RE.cls slashDashC,
     rrepC digitC 2 2,
     RE.opt (rcat [rplusC wsC, rrepC digitC 1 1, rchar 58, RE.cls digitC, RE.cls digitC])])

/-- The three pickup-datetime patterns. -/
def pickupPatterns : List RE :=
  [rcat [rstr "pickup", wsStar, ralt [rstr "date", rstr "time", rstr "datetime"],
         sepReq, lazyGrp, ralt [rchar 10, RE.eos, rstr "delivery", rstr "deliver"]],
   rcat [rstr "pick", wsStar, rstr "up", sepReq, dateGrp],
   rcat [rstr "pickup", sepReq, dateGrp]]

/-- The three delivery-datetime patterns. -/
def deliveryPatterns : List RE :=
  [rcat [rstr "delivery", wsStar, ralt [rstr "date", rstr "time", rstr "datetime"],
         sepReq, lazyGrp, ralt [rchar 10, RE.eos, rstr "pickup", rstr "pick"]],
   rcat [rstr "deliver", RE.opt (rchar 121), sepReq, dateGrp],
   rcat [rstr "drop", wsStar, rstr "off", sepReq, dateGrp]]

/-- The two equipment-type patterns. -/
def equipmentPatterns : List RE :=
  [rcat [rstr "equipment", wsStar, RE.opt (rstr "type"), sepReq, lazyGrp, endAlt],
   rcat [RE.wb,
         RE.grp (ralt [rstr "flatbed", rstr "reefer",
                       rcat [rstr "dry", wsStar, rstr "van"], rstr "van",
                       rstr "tanker", rstr "intermodal", rstr "container"]),
         RE.wb]]

/-- The two mode patterns. -/
def modePatterns : List RE :=
  [rcat [rstr "mode", sepReq, RE.grp (rplusC wordC)],
   rcat [RE.wb,
         RE.grp (ralt [rstr "ftl", rstr "ltl", rstr "fcl", rstr "lcl",
                       rstr "parcel", rstr "intermodal", rstr "drayage",
                       rstr "truckload"]),
         RE.wb]]

/-- `([\d,]+\.?\d*)` -/
def amountGrp : RE :=
  RE.grp (rcat [rplusC digitCommaC, RE.opt (rchar 46), RE.starC digitC])

/-- The rate pattern searched over the lower-cased text. -/
def rateRE : RE :=
  rcat [ralt [rcat [rstr "agreed", wsStar, rstr "amount"],
              rcat [rstr "carrier", wsStar, rstr "rate"],
              rcat [rstr "total", wsStar, ralt [rstr "rate", rstr "charge", rstr "amount"]],
              rstr "rate", rstr "charge"],
        wsStar, RE.opt (RE.cls colonDashC), wsStar, RE.opt (rchar 36), wsStar,
        amountGrp]

/-- `\$\s*([\d,]+\.?\d*)`, the fallback rate pattern on the original text. -/
def dollarRE : RE :=
  rcat [rchar 36, wsStar, amountGrp]

/-- `\b(usd|inr|eur|gbp|cad)\b` -/
def currencyRE : RE :=
  rcat [RE.wb, RE.grp (ralt [rstr "usd", rstr "inr", rstr "eur", rstr "gbp", rstr "cad"]),
        RE.wb]

/-- `(?:lbs?|kg|tons?)` -/
def unitAlt : RE :=
  ralt [RE.cat (rstr "lb") (RE.opt (rchar 115)), rstr "kg",
        RE.cat (rstr "ton") (RE.opt (rchar 115))]

/-- The two weight patterns. -/
def weightPatterns : List RE :=
  [rcat [rstr "weight", sepReq,
         RE.grp (rcat [rplusC digitCommaC, RE.opt (rchar 46), RE.starC digitC,
                       wsStar, RE.opt unitAlt])],
   rcat [amountGrp, wsStar, unitAlt, RE.wb]]

/-- The two carrier-name patterns. -/
def carrierPatterns : List RE :=
  [rcat [rstr "carrier", wsStar, RE.opt (rstr "name"), sepReq, lazyGrp,
         ralt [rchar 10, RE.eos, rstr "driver", rstr "dispatcher", rstr "rate"]],
   rcat [rstr "trucking", wsStar, rstr "company", sepReq, lazyGrp, endAlt]]

/-- The 11-field structured record; `none` models the `None` values. -/
structure StructuredRecord where
  shipment_id : Option (List Nat)
  shipper : Option (List Nat)
  consignee : Option (List Nat)
  pickup_datetime : Option (List Nat)
  delivery_datetime : Option (List Nat)
  equipment_type : Option (List Nat)
  mode : Option (List Nat)
  rate : Option (List Nat)
  currency : Option (List Nat)
  weight : Option (List Nat)
  carrier_name : Option (List Nat)
deriving DecidableEq, Repr

/-- `extract_structured_fields(full_text)` (the input is already a string,
so the `isinstance` coercion branch is not taken). -/
def extract_structured_fields (full_text : List Nat) : StructuredRecord :=
  let text := normWs full_text
  let lower := lowerL text
  let rate : Option (List Nat) :=
    match searchGroup rateRE lower with
    | some g => some g
    | none =>
      match searchGroup dollarRE text with
      | some g => some g
      | none => none
  let currency : Option (List Nat) :=
    match searchGroup currencyRE lower with
    | some g => some (g.map pyUpper)
    | none => if hasSub text (codes "$") then some (codes "USD") else none
  { shipment_id := findFirst shipmentIdPatterns text
    shipper := findFirst shipperPatterns lower
    consignee := findFirst consigneePatterns lower
    pickup_datetime := findFirst pickupPatterns lower
    delivery_datetime := findFirst deliveryPatterns lower
    equipment_type := findFirst equipmentPatterns lower
    mode := findFirst modePatterns lower
    rate := rate
    currency := currency
    weight := findFirst weightPatterns lower
    carrier_name := findFirst carrierPatterns lower }

/-! ## Helper lemmas -/

/-- Once the window start has reached the text length, the loop stops at
once, whatever fuel is left. -/
lemma chunkPageFuel_done (text : List Nat) (chunk_size overlap fuel start : Nat)
    (h : text.length ≤ start) :
    chunkPageFuel text chunk_size overlap fuel start = some [] := by
  cases fuel <;> simp [chunkPageFuel, h]

/-- `pyLower` is idempotent. -/
lemma pyLower_idem (c : Nat) : pyLower (pyLower c) = pyLower c := by
  simp only [pyLower]
  by_cases h : 65 ≤ c ∧ c ≤ 90
  · rw [if_pos h, if_neg (by omega)]
  · rw [if_neg h, if_neg h]

/-- `lowerL` is idempotent. -/
lemma lowerL_idem (s : List Nat) : lowerL (lowerL s) = lowerL s := by
  simp only [lowerL, List.map_map]
  exact List.map_congr_left fun c _ => pyLower_idem c

/-- The sum of squares of a rational vector is non-negative. -/
lemma normSq_nonneg (v : List ℚ) : 0 ≤ normSq v :=
  List.sum_nonneg fun x hx => by
    obtain ⟨y, _, rfl⟩ := List.mem_map.mp hx
    exact mul_self_nonneg y

/-- Sums of rational lists cast to the reals componentwise. -/
lemma castSum (l : List ℚ) : ((l.sum : ℚ) : ℝ) = (l.map fun q : ℚ => (q : ℝ)).sum := by
  induction l with
  | nil => simp
  | cons a t ih => simp [List.sum_cons, Rat.cast_add, ih]

/-- The `norm != 0` test of the source is the `normSq v ≠ 0` test of the
model. -/
lemma sqrt_normSq_eq_zero_iff (v : List ℚ) :
    Real.sqrt ((normSq v : ℚ) : ℝ) = 0 ↔ normSq v = 0 := by
  rw [Real.sqrt_eq_zero (by exact_mod_cast normSq_nonneg v)]
  exact_mod_cast Iff.rfl

/-- Rounding over `ℚ` is monotone. -/
lemma round_mono_q {a b : ℚ} (h : a ≤ b) : round a ≤ round b := by
  rw [round_eq, round_eq]
  exact Int.floor_le_floor (by linarith)

/-- `round2` maps `[0, 1]` into `[0, 1]`. -/
lemma round2_bounds {x : ℚ} (h0 : 0 ≤ x) (h1 : x ≤ 1) :
    0 ≤ round2 x ∧ round2 x ≤ 1 := by
  have l1 : (0 : ℤ) ≤ round (100 * x) := by
    have := round_mono_q (by linarith : (0 : ℚ) ≤ 100 * x)
    simpa using this
  have l2 : round (100 * x) ≤ 100 := by
    have h := round_mono_q (by linarith : 100 * x ≤ (100 : ℚ))
    have h100 : round (100 : ℚ) = 100 := by norm_num [round_eq]
    rw [h100] at h
    exact h
  constructor
  · unfold round2
    apply div_nonneg _ (by norm_num)
    exact_mod_cast l1
  · unfold round2
    rw [div_le_one (by norm_num)]
    exact_mod_cast l2

/-! ## Claim theorems -/

/-- Claim C1.  The code does not reject `overlap ≥ chunk_size` and does not
treat it as zero overlap: at `chunk_size = 1`, `overlap = 1` on the one-page
text `"a"`, the window start is `0` in every iteration (`end - overlap`
recomputes to `0`), so the loop never terminates — no amount of fuel
completes it.  This contradicts the required invariant that the start
strictly advance each iteration. -/
theorem chunker_diverges_on_overlap_eq_chunk_size :
    ∀ fuel, chunkPageFuel (codes "a") 1 1 fuel 0 = none := by
  intro fuel
  induction fuel with
  | zero => decide
  | succ f ih =>
    simp only [chunkPageFuel]
    rw [if_neg (by decide)]
    rw [show (0 + 1 - 1 : Nat) = 0 from rfl, ih]

/-- Claim C3, counterexample.  A one-page document whose text `"ab"` has
exactly `chunk_size = 2` characters and is not all whitespace yields two
chunks under the source's loop when `overlap = 1`: the window restarts at
`end - overlap = 1 < 2` and emits the tail `"b"` as a second chunk. -/
theorem chunk_exact_size_two_chunks :
    (codes "ab").length = 2 ∧ pyStrip (codes "ab") ≠ [] ∧
    chunk_text [⟨1, codes "ab"⟩] 2 1 = [⟨codes "ab", 1⟩, ⟨codes "b", 1⟩] ∧
    (chunk_text [⟨1, codes "ab"⟩] 2 1).length ≠ 1 := by decide

/-- Claim C3, amended.  With `overlap = 0`, a single page whose text has
exactly `chunk_size` characters and is not entirely whitespace produces
exactly one chunk: the whole text, tagged with the page number. -/
theorem chunk_exact_size_one_chunk (n : Nat) (text : List Nat) (chunk_size : Nat)
    (hlen : text.length = chunk_size) (hws : pyStrip text ≠ []) :
    chunk_text [⟨n, text⟩] chunk_size 0 = [⟨text, n⟩] := by
  have htext : text ≠ [] := by
    intro h
    exact hws (by simp [h, pyStrip])
  have hpos : 0 < chunk_size := hlen ▸ List.length_pos.mpr htext
  obtain ⟨f, rfl⟩ : ∃ f, chunk_size = f + 1 := ⟨chunk_size - 1, by omega⟩
  have h1 : chunkPageFuel text (f + 1) 0 (f + 1) 0 = some [text] := by
    simp only [chunkPageFuel]
    rw [if_neg (by omega)]
    rw [show (0 + (f + 1) - 0 : Nat) = f + 1 from by omega]
    rw [chunkPageFuel_done text (f + 1) 0 f (f + 1) (by omega)]
    have hslice : pySlice text 0 (f + 1) = text := by
      simp only [pySlice, List.drop_zero, Nat.zero_add, Nat.sub_zero]
      rw [← hlen]
      simp
    simp [hslice, hws]
  simp [chunk_text, chunkPage, hlen, h1]

/-- Witness for the amended C3 theorem at a concrete page. -/
theorem chunk_exact_size_one_chunk_witness :
    chunk_text [⟨1, codes "ab"⟩] 2 0 = [⟨codes "ab", 1⟩] :=
  chunk_exact_size_one_chunk 1 (codes "ab") 2 (by decide) (by decide)

/-- Claim C2, counterexample.  `VectorStore.add` with one vector and two
chunks (lengths differ) does not fail: it appends both sequences, leaving a
store whose vector count and chunk count disagree. -/
theorem add_length_mismatch_accepted :
    ([[(1 : ℚ)]].length ≠ [(⟨codes "a", 1⟩ : Chunk), ⟨codes "b", 1⟩].length) ∧
    VectorStore.add ⟨1, [], []⟩ [[(1 : ℚ)]] [⟨codes "a", 1⟩, ⟨codes "b", 1⟩] =
      some ⟨1, [[(1 : ℚ)]], [⟨codes "a", 1⟩, ⟨codes "b", 1⟩]⟩ := by decide

/-- Claim C2, amended.  `add` fails — without modifying the store — exactly
when some vector's dimension differs from the configured dimension (the
check performed by the underlying index); it performs no length comparison
between the two sequences, which are otherwise appended in order. -/
theorem add_dim_check_only (st : VectorStore) (vectors : List (List ℚ))
    (chunks : List Chunk) :
    ((∃ v ∈ vectors, v.length ≠ st.dim) → st.add vectors chunks = none) ∧
    ((∀ v ∈ vectors, v.length = st.dim) →
      st.add vectors chunks =
        some { st with vecs := st.vecs ++ vectors,
                       text_chunks := st.text_chunks ++ chunks }) := by
  constructor
  · rintro ⟨v, hv, hne⟩
    unfold VectorStore.add
    rw [if_neg]
    intro hall
    exact hne (by simpa using (List.all_eq_true.mp hall v hv))
  · intro hall
    unfold VectorStore.add
    rw [if_pos]
    exact List.all_eq_true.mpr fun v hv => by simpa using hall v hv

/-- Witness for the amended C2 theorem: a dimension mismatch is rejected,
and matching dimensions are appended. -/
theorem add_dim_check_only_witness :
    VectorStore.add ⟨2, [], []⟩ [[(1 : ℚ)]] [] = none ∧
    VectorStore.add ⟨1, [], []⟩ [[(1 : ℚ)]] [] = some ⟨1, [[(1 : ℚ)]], []⟩ :=
  ⟨(add_dim_check_only ⟨2, [], []⟩ [[(1 : ℚ)]] []).1 ⟨[(1 : ℚ)], by decide, by decide⟩,
   (add_dim_check_only ⟨1, [], []⟩ [[(1 : ℚ)]] []).2 (by decide)⟩

/-- Claim C5.  `calculate_confidence` returns `0` on the empty list; with a
first distance `d` it returns `0` when `d ≥ max_distance` and
`round2 (1 - d / max_distance)` when `d < max_distance`; `d = 0` yields `1`,
and for non-negative `d` the result lies in `[0, 1]`. -/
theorem calculate_confidence_spec (results : List SearchResult)
    (max_distance : ℚ) (hm : 0 < max_distance) :
    calculate_confidence [] max_distance = 0 ∧
    ∀ r rs, results = r :: rs →
      (max_distance ≤ r.distance → calculate_confidence results max_distance = 0) ∧
      (r.distance < max_distance →
        calculate_confidence results max_distance =
          round2 (1 - r.distance / max_distance)) ∧
      (r.distance = 0 → calculate_confidence results max_distance = 1) ∧
      (0 ≤ r.distance →
        0 ≤ calculate_confidence results max_distance ∧
        calculate_confidence results max_distance ≤ 1) := by
  refine ⟨rfl, ?_⟩
  rintro r rs rfl
  refine ⟨?_, ?_, ?_, ?_⟩
  · intro h
    simp [calculate_confidence, h]
  · intro h
    simp [calculate_confidence, not_le.mpr h]
  · intro h
    have hlt : ¬ max_distance ≤ r.distance := by rw [h]; exact not_le.mpr hm
    simp only [calculate_confidence, if_neg hlt, h, zero_div, sub_zero]
    norm_num [round2, round_eq]
    exact hm
  · intro h
    by_cases hge : max_distance ≤ r.distance
    · simp [calculate_confidence, hge]
    · simp only [calculate_confidence, if_neg hge]
      push_neg at hge
      have hdiv0 : 0 ≤ r.distance / max_distance := div_nonneg h hm.le
      have hdiv1 : r.distance / max_distance < 1 := (div_lt_one hm).mpr hge
      exact round2_bounds (by linarith) (by linarith)

/-- Witness for the C5 theorem: with best distance `0` and the default
threshold `1.5`, confidence is `1`. -/
theorem calculate_confidence_spec_witness :
    calculate_confidence [⟨⟨codes "x", 1⟩, 0⟩] (3 / 2) = 1 :=
  (((calculate_confidence_spec [⟨⟨codes "x", 1⟩, 0⟩] (3 / 2)
    (by norm_num)).2 ⟨⟨codes "x", 1⟩, 0⟩ [] rfl).2.2.1) rfl

/-- Claim C9.  Saving a store and loading from the same location yields a
store with the same dimension, vectors and chunks, whose `search` output is
identical to the pre-save store's for every query and `top_k`. -/
theorem save_load_search_eq (st : VectorStore) (fs : FileSystem) (path : String) :
    ∃ st2, VectorStore.load (st.save path fs) path = some st2 ∧
      st2.dim = st.dim ∧ st2.vecs = st.vecs ∧ st2.text_chunks = st.text_chunks ∧
      ∀ q top_k, st2.search q top_k = st.search q top_k := by
  refine ⟨⟨st.dim, st.vecs, st.text_chunks⟩, ?_, rfl, rfl, rfl, fun q top_k => rfl⟩
  simp [VectorStore.load, VectorStore.save]

/-- Claim C7.  A question containing `"ifsc"` (case-insensitive) with a
non-empty result list whose top chunk lacks `"ifsc"` is always rejected by
`final_guardrail`: when the retrieval-strength check already fails the chain
returns `False`, and otherwise the keyword-intent check fires — coverage and
rate checks are never consulted. -/
theorem ifsc_guardrail_rejects (question : List Nat) (results : List SearchResult)
    (r : SearchResult) (rs : List SearchResult) (hres : results = r :: rs)
    (hq : hasSub (lowerL question) (codes "ifsc") = true)
    (ht : hasSub (lowerL r.chunk.text) (codes "ifsc") = false) :
    final_guardrail question results = false := by
  subst hres
  have hkw : keyword_intent_guardrail question r.chunk.text = false := by
    simp [keyword_intent_guardrail, critical_keywords, hq, ht]
  unfold final_guardrail
  cases hstrong : strong_retrieval_guardrail (r :: rs) (3 / 2) with
  | false => simp [hstrong]
  | true => simp [hstrong, hkw]

/-- Witness for the C7 theorem at a concrete question and result. -/
theorem ifsc_guardrail_rejects_witness :
    final_guardrail (codes "what is the IFSC code")
      [⟨⟨codes "hello 123", 1⟩, 1⟩] = false :=
  ifsc_guardrail_rejects (codes "what is the IFSC code") _
    ⟨⟨codes "hello 123", 1⟩, 1⟩ [] rfl (by decide) (by decide)

/-- Claim C10.  `rate_guardrail` triggers exactly when the lower-cased
question contains `"rate"`, `"charge"` or `"amount"` as a substring (also
inside longer words); a triggered question passes iff the lower-cased top
text has a digit and one of the six currency markers, and a non-triggered
question passes unconditionally. -/
theorem rate_guardrail_spec (question text : List Nat) :
    ((hasSub (lowerL question) (codes "rate") ||
      hasSub (lowerL question) (codes "charge") ||
      hasSub (lowerL question) (codes "amount")) = true →
      (rate_guardrail question text = true ↔
        ((lowerL text).any (fun c => decide (48 ≤ c ∧ c ≤ 57)) = true ∧
         (currency_markers.any fun c => hasSub (lowerL text) c) = true))) ∧
    ((hasSub (lowerL question) (codes "rate") ||
      hasSub (lowerL question) (codes "charge") ||
      hasSub (lowerL question) (codes "amount")) = false →
      rate_guardrail question text = true) := by
  constructor
  · intro h
    simp [rate_guardrail, h]
  · intro h
    simp only [Bool.or_eq_false_iff] at h
    simp [rate_guardrail, h.1.1, h.1.2, h.2]

/-- Witness for the C10 theorem: "separate" contains "rate", so a question
with no rate intent still triggers the check and fails on a chunk without
digits or currency markers. -/
theorem rate_guardrail_spec_witness :
    rate_guardrail (codes "separate delivery") (codes "no digits here") = false := by
  have h := (rate_guardrail_spec (codes "separate delivery")
    (codes "no digits here")).1 (by decide)
  have hAB : ¬(((lowerL (codes "no digits here")).any
        (fun c => decide (48 ≤ c ∧ c ≤ 57)) = true) ∧
      ((currency_markers.any fun c => hasSub (lowerL (codes "no digits here")) c) = true)) := by
    decide
  exact Bool.eq_false_iff.mpr fun ht => hAB (h.mp ht)

/-- `rawEmbed` only sees the lower-cased input, which lowering again does
not change. -/
lemma rawEmbed_lower (text : List Nat) (dim : Nat) :
    rawEmbed (lowerL text) dim = rawEmbed text dim := by
  simp only [rawEmbed, lowerL_idem]

/-- The squared entries of the normalized embedding sum to `1` whenever the
raw count vector is non-zero. -/
lemma sumSq_simple_embed (text : List Nat) (dim : Nat)
    (hS : normSq (rawEmbed text dim) ≠ 0) :
    ((simple_embed text dim).map fun x => x * x).sum = 1 := by
  have hnn : (0 : ℝ) ≤ ((normSq (rawEmbed text dim) : ℚ) : ℝ) := by
    exact_mod_cast normSq_nonneg (rawEmbed text dim)
  have hpos : (0 : ℝ) < ((normSq (rawEmbed text dim) : ℚ) : ℝ) := by
    exact_mod_cast (normSq_nonneg (rawEmbed text dim)).lt_of_ne (Ne.symm hS)
  have hdef : simple_embed text dim =
      (rawEmbed text dim).map fun x : ℚ =>
        (x : ℝ) / Real.sqrt ((normSq (rawEmbed text dim) : ℚ) : ℝ) := by
    exact if_pos hS
  rw [hdef, List.map_map]
  have hmap : (rawEmbed text dim).map
        ((fun x => x * x) ∘ fun x : ℚ =>
          (x : ℝ) / Real.sqrt ((normSq (rawEmbed text dim) : ℚ) : ℝ)) =
      (rawEmbed text dim).map fun x : ℚ =>
        ((x * x : ℚ) : ℝ) * (((normSq (rawEmbed text dim) : ℚ) : ℝ))⁻¹ := by
    apply List.map_congr_left
    intro x _
    simp only [Function.comp_apply]
    rw [div_mul_div_comm, Real.mul_self_sqrt hnn]
    push_cast
    rw [div_eq_mul_inv]
  rw [hmap, List.sum_map_mul_right]
  have hc : (List.map (fun x : ℚ => ((x * x : ℚ) : ℝ)) (rawEmbed text dim)).sum =
      ((normSq (rawEmbed text dim) : ℚ) : ℝ) := by
    have hmm : List.map (fun x : ℚ => ((x * x : ℚ) : ℝ)) (rawEmbed text dim) =
        (List.map (fun x : ℚ => x * x) (rawEmbed text dim)).map fun q : ℚ => (q : ℝ) := by
      simp [List.map_map, Function.comp]
    rw [hmm, ← castSum]
    rfl
  rw [hc]
  exact mul_inv_cancel₀ hpos.ne'

/-- A non-empty input has a non-zero raw count vector when the dimension is
positive: the head's bucket is counted at least once. -/
lemma normSq_rawEmbed_ne_zero (text : List Nat) (dim : Nat) (hd : 0 < dim)
    (ht : text ≠ []) : normSq (rawEmbed text dim) ≠ 0 := by
  obtain ⟨c, rest, rfl⟩ := List.exists_cons_of_ne_nil ht
  intro h0
  have hi0lt : pyLower c % dim < dim := Nat.mod_lt _ hd
  have hmem : ((((lowerL (c :: rest)).countP
        fun x => decide (x % dim = pyLower c % dim) : ℕ) : ℚ)) ∈
      rawEmbed (c :: rest) dim := by
    simp only [rawEmbed]
    exact List.mem_map_of_mem _ (List.mem_range.mpr hi0lt)
  have hsq_mem : ((((lowerL (c :: rest)).countP
        fun x => decide (x % dim = pyLower c % dim) : ℕ) : ℚ)) *
      ((((lowerL (c :: rest)).countP
        fun x => decide (x % dim = pyLower c % dim) : ℕ) : ℚ)) ∈
      (rawEmbed (c :: rest) dim).map fun x => x * x :=
    List.mem_map_of_mem _ hmem
  have hle := List.single_le_sum (l := (rawEmbed (c :: rest) dim).map fun x => x * x)
    (fun x hx => by
      obtain ⟨y, _, rfl⟩ := List.mem_map.mp hx
      exact mul_self_nonneg y) _ hsq_mem
  have hsum0 : ((rawEmbed (c :: rest) dim).map fun x => x * x).sum = 0 := h0
  rw [hsum0] at hle
  have hcount : 1 ≤ (lowerL (c :: rest)).countP
      fun x => decide (x % dim = pyLower c % dim) := by
    rw [lowerL, List.map_cons, List.countP_cons]
    simp
  have : (1 : ℚ) ≤ (((lowerL (c :: rest)).countP
      fun x => decide (x % dim = pyLower c % dim) : ℕ) : ℚ) := by
    exact_mod_cast hcount
  nlinarith

/-- The empty input embeds to the zero vector of the configured dimension. -/
lemma simple_embed_nil (dim : Nat) : simple_embed [] dim = List.replicate dim 0 := by
  have h0 : rawEmbed [] dim = List.replicate dim 0 := by
    simp [rawEmbed, lowerL, List.map_const']
  have hn : normSq (List.replicate dim (0 : ℚ)) = 0 := by
    simp [normSq, List.map_replicate, List.sum_replicate]
  simp only [simple_embed, h0, hn, ne_eq, not_true_eq_false, if_false]
  simp [List.map_replicate]

/-- Claim C6.  `simple_embed` is case-insensitive, its output has Euclidean
norm `1` whenever the raw count vector is non-zero (which holds for every
non-empty input when the dimension is positive), and the empty input yields
the zero vector of the configured dimension. -/
theorem simple_embed_spec (text : List Nat) (dim : Nat) (hd : 0 < dim) :
    simple_embed text dim = simple_embed (lowerL text) dim ∧
    (normSq (rawEmbed text dim) ≠ 0 →
      Real.sqrt (((simple_embed text dim).map fun x => x * x).sum) = 1) ∧
    (text ≠ [] → normSq (rawEmbed text dim) ≠ 0) ∧
    simple_embed [] dim = List.replicate dim 0 := by
  refine ⟨?_, ?_, fun ht => normSq_rawEmbed_ne_zero text dim hd ht, simple_embed_nil dim⟩
  · simp only [simple_embed, rawEmbed_lower]
  · intro hS
    rw [sumSq_simple_embed text dim hS, Real.sqrt_one]

/-- Witness for the C6 theorem: the two-character input `"ab"` at dimension
`2` has a unit-norm embedding. -/
theorem simple_embed_spec_witness :
    Real.sqrt (((simple_embed (codes "ab") 2).map fun x => x * x).sum) = 1 :=
  (simple_embed_spec (codes "ab") 2 (by decide)).2.1
    ((simple_embed_spec (codes "ab") 2 (by decide)).2.2.1 (by decide))

/-- If none of the patterns matches the source, the `find` helper returns
`None` (never an empty string). -/
lemma findFirst_eq_none (patterns : List RE) (source : List Nat)
    (h : ∀ r ∈ patterns, reSearch r source = none) :
    findFirst patterns source = none := by
  induction patterns with
  | nil => rfl
  | cons r rest ih =>
    have hsg : searchGroup r source = none := by
      simp [searchGroup, h r (List.mem_cons_self r rest)]
    simp only [findFirst, hsg]
    exact ih fun x hx => h x (List.mem_cons_of_mem _ hx)

set_option maxRecDepth 10000

/-- Claim C8.  On `"Shipment ID: LD12345, Rate: $2500 USD"` the extractor
returns shipment id `"LD12345"`, rate `"2500"` and currency `"USD"`; and on
every text where no shipment-id pattern matches, the shipment-id field is
`None`, not an empty string. -/
theorem extract_structured_fields_spec :
    (extract_structured_fields (codes "Shipment ID: LD12345, Rate: $2500 USD")).shipment_id =
        some (codes "LD12345") ∧
    (extract_structured_fields (codes "Shipment ID: LD12345, Rate: $2500 USD")).rate =
        some (codes "2500") ∧
    (extract_structured_fields (codes "Shipment ID: LD12345, Rate: $2500 USD")).currency =
        some (codes "USD") ∧
    ∀ t : List Nat, (∀ r ∈ shipmentIdPatterns, reSearch r (normWs t) = none) →
      (extract_structured_fields t).shipment_id = none := by
  refine ⟨by decide, by decide, by decide, ?_⟩
  intro t hnone
  show findFirst shipmentIdPatterns (normWs t) = none
  exact findFirst_eq_none _ _ hnone

/-- Witness for the universal part of the C8 theorem: a text with no
shipment-id-like pattern yields an absent shipment id. -/
theorem extract_structured_fields_spec_witness :
    (extract_structured_fields (codes "hello world")).shipment_id = none :=
  extract_structured_fields_spec.2.2.2 (codes "hello world") (by decide)

/-- The faiss hit list is sorted: ascending distance, ties by insertion
order. -/
lemma faissSearch_sorted (rows : List (List ℚ)) (q : List ℚ) (top_k : Nat) :
    (faissSearch rows q top_k).Sorted scoreLe :=
  (List.sorted_insertionSort scoreLe ((rows.map (sqDist q)).enum)).sublist
    (List.take_sublist top_k _)

/-- Every index produced by the faiss hit list addresses a stored row. -/
lemma faissSearch_idx_lt (rows : List (List ℚ)) (q : List ℚ) (top_k : Nat) :
    ∀ p ∈ faissSearch rows q top_k, p.1 < rows.length := by
  intro p hp
  have h1 : p ∈ List.insertionSort scoreLe ((rows.map (sqDist q)).enum) :=
    List.mem_of_mem_take hp
  have h2 : p ∈ (rows.map (sqDist q)).enum := (List.mem_insertionSort scoreLe).mp h1
  have h3 := (List.getElem?_eq_some.mp (List.mem_enum_iff_getElem?.mp h2)).1
  simpa using h3

/-- The faiss hit list has `min top_k n` entries for `n` stored rows. -/
lemma faissSearch_length (rows : List (List ℚ)) (q : List ℚ) (top_k : Nat) :
    (faissSearch rows q top_k).length = min top_k rows.length := by
  simp [faissSearch, List.length_take,
    (List.perm_insertionSort scoreLe ((rows.map (sqDist q)).enum)).length_eq,
    List.enum_length]

/-- Claim C4.  On a well-formed store (parallel chunk and vector lists, all
of the configured dimension, query of matching dimension), `search` returns
results in non-decreasing distance order; at the model level the scored
hits are sorted by distance with ties broken by insertion order; with
`top_k ≥ n` it returns exactly the `n` stored entries; and an empty index
yields the empty sequence. -/
theorem search_spec (st : VectorStore) (q : List ℚ) (top_k : Nat)
    (hw : st.text_chunks.length = st.vecs.length) (hq : q.length = st.dim)
    (hv : ∀ v ∈ st.vecs, v.length = st.dim) :
    ((st.search q top_k).map SearchResult.distance).Sorted (· ≤ ·) ∧
    (faissSearch st.vecs q top_k).Sorted scoreLe ∧
    (st.vecs.length ≤ top_k → (st.search q top_k).length = st.vecs.length) ∧
    (st.vecs.length = 0 → st.search q top_k = []) := by
  have hfilter : (faissSearch st.vecs q top_k).filter
      (fun p => decide (p.1 < st.text_chunks.length)) = faissSearch st.vecs q top_k := by
    apply List.filter_eq_self.mpr
    intro p hp
    exact decide_eq_true (hw ▸ faissSearch_idx_lt st.vecs q top_k p hp)
  refine ⟨?_, faissSearch_sorted st.vecs q top_k, ?_, ?_⟩
  · by_cases h0 : st.vecs.length = 0
    · simp [VectorStore.search, h0]
    · have hdef : st.search q top_k =
          ((faissSearch st.vecs q top_k).filter
            (fun p => decide (p.1 < st.text_chunks.length))).map
            fun p => ⟨st.text_chunks.getD p.1 default, p.2⟩ := by
        simp [VectorStore.search, h0]
      rw [hdef, List.map_map]
      exact ((faissSearch_sorted st.vecs q top_k).filter _).map _
        fun a b hab => hab.elim (fun h => le_of_lt h) fun h => le_of_eq h.1
  · intro hk
    by_cases h0 : st.vecs.length = 0
    · simp [VectorStore.search, h0]
    · have hdef : st.search q top_k =
          ((faissSearch st.vecs q top_k).filter
            (fun p => decide (p.1 < st.text_chunks.length))).map
            fun p => ⟨st.text_chunks.getD p.1 default, p.2⟩ := by
        simp [VectorStore.search, h0]
      rw [hdef, List.length_map, hfilter, faissSearch_length]
      exact Nat.min_eq_right hk
  · intro h0
    simp [VectorStore.search, h0]

/-- Witness for the C4 theorem: a three-entry store with a distance tie
between entries 0 and 2. -/
theorem search_spec_witness :
    (((VectorStore.search ⟨1, [[1], [3], [1]],
        [⟨codes "a", 1⟩, ⟨codes "b", 1⟩, ⟨codes "c", 1⟩]⟩ [1] 5).map
          SearchResult.distance).Sorted (· ≤ ·)) ∧
    ((faissSearch [[1], [3], [1]] [1] 5).Sorted scoreLe) ∧
    (([[(1 : ℚ)], [3], [1]].length ≤ 5 →
      (VectorStore.search ⟨1, [[1], [3], [1]],
        [⟨codes "a", 1⟩, ⟨codes "b", 1⟩, ⟨codes "c", 1⟩]⟩ [1] 5).length =
        [[(1 : ℚ)], [3], [1]].length)) ∧
    (([[(1 : ℚ)], [3], [1]].length = 0 →
      VectorStore.search ⟨1, [[1], [3], [1]],
        [⟨codes "a", 1⟩, ⟨codes "b", 1⟩, ⟨codes "c", 1⟩]⟩ [1] 5 = [])) :=
  search_spec ⟨1, [[1], [3], [1]], [⟨codes "a", 1⟩, ⟨codes "b", 1⟩, ⟨codes "c", 1⟩]⟩
    [1] 5 (by decide) (by decide) (by decide)
